import Mathlib

/-!
# Verification of the synstructure pattern-generation core

Shallow embedding of `src/lib.rs` (crate `synstructure`, early version built
on `syn 0.10` / `quote 0.3`).  Token streams (`quote::Tokens`) are modelled
as `List String`, one entry per token appended; identifiers (`syn::Ident`)
are `String`s.  A Rust panic (the `unwrap` on a missing field name) is
modelled by `Option`: `none` is the aborted generation pass.  Mutation
through the `&mut Field` handles held by `BindingInfo` is modelled by
state-passing variants of the traversals in which the callback reports the
field values it leaves behind.
-/

namespace Synstructure

/-- The field-shape-irrelevant data of one `syn::Field`: its optional name
(`ident`), and the generator metadata the core never interprets (type and
attributes, kept as plain strings). -/
structure Field where
  ident : Option String
  ty : String
  attrs : List String
deriving DecidableEq, Repr

/-- `syn::VariantData`: the field shape of one variant.  `Struct` is the
named shape, `Tuple` the positional shape, `Unit` the empty shape. -/
inductive VariantData where
  | Struct : List Field → VariantData
  | Tuple : List Field → VariantData
  | Unit : VariantData
deriving DecidableEq, Repr

/-- One `syn::Variant` of an enum: its name and its field shape. -/
structure Variant where
  ident : String
  data : VariantData
deriving DecidableEq, Repr

/-- `syn::Body`: a struct body is a single field shape, an enum body an
ordered list of variants. -/
inductive Body where
  | Enum : List Variant → Body
  | Struct : VariantData → Body
deriving DecidableEq, Repr

/-- `syn::MacroInput`: the type descriptor the traversals consume (name and
body; generics and attributes are never read by this core). -/
structure MacroInput where
  ident : String
  body : Body
deriving DecidableEq, Repr

/-- `BindStyle`: the type of binding to use when generating a pattern. -/
inductive BindStyle where
  | Move
  | MoveMut
  | Ref
  | RefMut
deriving DecidableEq, Repr

/-- `impl ToTokens for BindStyle`: the tokens `to_tokens` appends for each
style (`Move` appends nothing; `MoveMut` appends `mut`; `Ref` appends `ref`;
`RefMut` appends `ref` then `mut`). -/
def BindStyle.to_tokens : BindStyle → List String
  | BindStyle.Move => []
  | BindStyle.MoveMut => ["mut"]
  | BindStyle.Ref => ["ref"]
  | BindStyle.RefMut => ["ref", "mut"]

/-- `BindOpts`: binding style plus the name prefix used for generated
binding identifiers.  (The source field is named `prefix`; that word is not
usable as a Lean identifier here, so the field is called `pfx`.) -/
structure BindOpts where
  bind_style : BindStyle
  pfx : String
deriving DecidableEq, Repr

/-- `BindOpts::new`: the given style with the default prefix `__binding`. -/
def BindOpts.new (bind_style : BindStyle) : BindOpts :=
  { bind_style := bind_style, pfx := "__binding" }

/-- `BindingInfo`: a generated binding identifier paired with the handle to
the field it binds.  The `&'a mut Field` handle is modelled by the `Field`
value it designates; the state-passing traversals below model writes made
through it. -/
structure BindingInfo where
  ident : String
  field : Field
deriving DecidableEq, Repr

/-- The `VariantData::Tuple` loop of `match_pattern`: for each field, at
positional index `i`, emit `quote!(#binding #ident ,)` into the pattern and
push a `BindingInfo` with identifier `format!("{}_{}", options.prefix, i)`.
Returns (tokens emitted inside the parentheses, bindings pushed). -/
def tuple_bindings (style : BindStyle) (pfx : String) :
    Nat → List Field → List String × List BindingInfo
  | _, [] => ([], [])
  | i, f :: fs =>
      let id := pfx ++ "_" ++ toString i
      let rest := tuple_bindings style pfx (i + 1) fs
      (style.to_tokens ++ [id, ","] ++ rest.1,
       { ident := id, field := f } :: rest.2)

/-- The `VariantData::Struct` loop of `match_pattern`: for each field, at
positional index `i`, read the field name (`field.ident.as_ref().unwrap()`
panics — `none` — when the name is missing), emit
`quote!(#field_name : #binding #ident ,)` and push a `BindingInfo` with
identifier `format!("{}_{}", options.prefix, i)`. -/
def struct_bindings (style : BindStyle) (pfx : String) :
    Nat → List Field → Option (List String × List BindingInfo)
  | _, [] => some ([], [])
  | i, f :: fs =>
      match f.ident with
      | none => none
      | some fname =>
          let id := pfx ++ "_" ++ toString i
          match struct_bindings style pfx (i + 1) fs with
          | none => none
          | some rest =>
              some ([fname, ":"] ++ style.to_tokens ++ [id, ","] ++ rest.1,
                    { ident := id, field := f } :: rest.2)

/-- `match_pattern`: generates a match pattern for binding to the given
`VariantData`.  The name tokens are emitted first; a `Unit` shape adds
nothing, a `Tuple` shape adds `( … )` around the tuple loop's tokens, a
`Struct` shape adds braces around the struct loop's tokens.  Returns the
pattern tokens and the bindings made. -/
def match_pattern (name : List String) (vd : VariantData) (options : BindOpts) :
    Option (List String × List BindingInfo) :=
  match vd with
  | VariantData.Unit => some (name, [])
  | VariantData.Tuple fields =>
      let r := tuple_bindings options.bind_style options.pfx 0 fields
      some (name ++ ["("] ++ r.1 ++ [")"], r.2)
  | VariantData.Struct fields =>
      match struct_bindings options.bind_style options.pfx 0 fields with
      | none => none
      | some r => some (name ++ ["\x7b"] ++ r.1 ++ ["\x7d"], r.2)

/-- The fields of a variant's field shape, in declaration order. -/
def vd_fields : VariantData → List Field
  | VariantData.Unit => []
  | VariantData.Tuple fs => fs
  | VariantData.Struct fs => fs

/-- The number of fields of a variant's field shape. -/
def field_count (vd : VariantData) : Nat :=
  (vd_fields vd).length

theorem tuple_bindings_fields (style : BindStyle) (pfx : String) (i : Nat)
    (fs : List Field) :
    (tuple_bindings style pfx i fs).2.map BindingInfo.field = fs := by
  induction fs generalizing i with
  | nil => rfl
  | cons f fs ih => simp [tuple_bindings, ih]

theorem tuple_bindings_idents (style : BindStyle) (pfx : String) (i : Nat)
    (fs : List Field) :
    (tuple_bindings style pfx i fs).2.map BindingInfo.ident =
      (List.enumFrom i fs).map (fun q => pfx ++ "_" ++ toString q.1) := by
  induction fs generalizing i with
  | nil => rfl
  | cons f fs ih => simp [tuple_bindings, List.enumFrom_cons, ih]

theorem tuple_bindings_tokens (style : BindStyle) (pfx : String) (i : Nat)
    (fs : List Field) :
    (tuple_bindings style pfx i fs).1 =
      ((List.enumFrom i fs).map (fun q =>
        style.to_tokens ++ [pfx ++ "_" ++ toString q.1, ","])).flatten := by
  induction fs generalizing i with
  | nil => rfl
  | cons f fs ih => simp [tuple_bindings, List.enumFrom_cons, ih]

theorem struct_bindings_fields (style : BindStyle) (pfx : String) (i : Nat)
    (fs : List Field) (r : List String × List BindingInfo)
    (h : struct_bindings style pfx i fs = some r) :
    r.2.map BindingInfo.field = fs := by
  induction fs generalizing i r with
  | nil =>
      simp only [struct_bindings, Option.some.injEq] at h
      subst h; rfl
  | cons f fs ih =>
      simp only [struct_bindings] at h
      cases hn : f.ident with
      | none => rw [hn] at h; exact absurd h (by simp)
      | some fname =>
          rw [hn] at h
          cases hr : struct_bindings style pfx (i + 1) fs with
          | none => rw [hr] at h; exact absurd h (by simp)
          | some rest =>
              rw [hr] at h
              simp only [Option.some.injEq] at h
              subst h
              simp [ih (i + 1) rest hr]

theorem struct_bindings_idents (style : BindStyle) (pfx : String) (i : Nat)
    (fs : List Field) (r : List String × List BindingInfo)
    (h : struct_bindings style pfx i fs = some r) :
    r.2.map BindingInfo.ident =
      (List.enumFrom i fs).map (fun q => pfx ++ "_" ++ toString q.1) := by
  induction fs generalizing i r with
  | nil =>
      simp only [struct_bindings, Option.some.injEq] at h
      subst h; rfl
  | cons f fs ih =>
      simp only [struct_bindings] at h
      cases hn : f.ident with
      | none => rw [hn] at h; exact absurd h (by simp)
      | some fname =>
          rw [hn] at h
          cases hr : struct_bindings style pfx (i + 1) fs with
          | none => rw [hr] at h; exact absurd h (by simp)
          | some rest =>
              rw [hr] at h
              simp only [Option.some.injEq] at h
              subst h
              simp [List.enumFrom_cons, ih (i + 1) rest hr]

theorem struct_bindings_tokens (style : BindStyle) (pfx : String) (i : Nat)
    (fs : List Field) (r : List String × List BindingInfo)
    (h : struct_bindings style pfx i fs = some r) :
    r.1 = ((List.enumFrom i fs).map (fun q =>
        [q.2.ident.getD "", ":"] ++ style.to_tokens ++
          [pfx ++ "_" ++ toString q.1, ","])).flatten := by
  induction fs generalizing i r with
  | nil =>
      simp only [struct_bindings, Option.some.injEq] at h
      subst h; rfl
  | cons f fs ih =>
      simp only [struct_bindings] at h
      cases hn : f.ident with
      | none => rw [hn] at h; exact absurd h (by simp)
      | some fname =>
          rw [hn] at h
          cases hr : struct_bindings style pfx (i + 1) fs with
          | none => rw [hr] at h; exact absurd h (by simp)
          | some rest =>
              rw [hr] at h
              simp only [Option.some.injEq] at h
              subst h
              simp [List.enumFrom_cons, hn, ih (i + 1) rest hr]

theorem struct_bindings_none_of_unnamed (style : BindStyle) (pfx : String)
    (i : Nat) (fs : List Field) (f : Field) (hmem : f ∈ fs)
    (hn : f.ident = none) :
    struct_bindings style pfx i fs = none := by
  induction fs generalizing i with
  | nil => cases hmem
  | cons g fs ih =>
      cases hmem with
      | head => simp [struct_bindings, hn]
      | tail _ hmem =>
          simp only [struct_bindings]
          cases g.ident with
          | none => rfl
          | some gname => rw [ih (i + 1) hmem]

theorem struct_bindings_isSome_of_named (style : BindStyle) (pfx : String)
    (i : Nat) (fs : List Field) (hnamed : ∀ f, f ∈ fs → f.ident ≠ none) :
    (struct_bindings style pfx i fs).isSome = true := by
  induction fs generalizing i with
  | nil => rfl
  | cons f fs ih =>
      simp only [struct_bindings]
      cases hn : f.ident with
      | none => exact absurd hn (hnamed f (List.mem_cons_self f fs))
      | some fname =>
          have h2 := ih (i + 1) (fun g hg => hnamed g (List.mem_cons_of_mem f hg))
          cases hr : struct_bindings style pfx (i + 1) fs with
          | none => rw [hr] at h2; cases h2
          | some rest => rfl

/-- Every pattern `match_pattern` produces starts with the name tokens. -/
theorem match_pattern_name_head (name : List String) (vd : VariantData)
    (options : BindOpts) (p : List String) (bs : List BindingInfo)
    (h : match_pattern name vd options = some (p, bs)) :
    p.take name.length = name := by
  cases vd with
  | Unit =>
      simp only [match_pattern, Option.some.injEq, Prod.mk.injEq] at h
      rw [← h.1, List.take_length]
  | Tuple fields =>
      simp only [match_pattern, Option.some.injEq, Prod.mk.injEq] at h
      rw [← h.1]
      simp only [List.append_assoc]
      exact List.take_left _ _
  | Struct fields =>
      simp only [match_pattern] at h
      cases hr : struct_bindings options.bind_style options.pfx 0 fields with
      | none => rw [hr] at h; exact absurd h (by simp)
      | some r =>
          rw [hr] at h
          simp only [Option.some.injEq, Prod.mk.injEq] at h
          rw [← h.1]
          simp only [List.append_assoc]
          exact List.take_left _ _

/-- The bindings `match_pattern` produces carry exactly the variant's fields,
in declaration order. -/
theorem match_pattern_fields (name : List String) (vd : VariantData)
    (options : BindOpts) (p : List String) (bs : List BindingInfo)
    (h : match_pattern name vd options = some (p, bs)) :
    bs.map BindingInfo.field = vd_fields vd := by
  cases vd with
  | Unit =>
      simp only [match_pattern, Option.some.injEq, Prod.mk.injEq] at h
      rw [← h.2]; rfl
  | Tuple fields =>
      simp only [match_pattern, Option.some.injEq, Prod.mk.injEq] at h
      rw [← h.2]; exact tuple_bindings_fields _ _ _ _
  | Struct fields =>
      simp only [match_pattern] at h
      cases hr : struct_bindings options.bind_style options.pfx 0 fields with
      | none => rw [hr] at h; exact absurd h (by simp)
      | some r =>
          rw [hr] at h
          simp only [Option.some.injEq, Prod.mk.injEq] at h
          rw [← h.2]; exact struct_bindings_fields _ _ _ _ _ hr

/-- The binding identifiers `match_pattern` produces are the prefix followed
by the zero-based positional index, one per field. -/
theorem match_pattern_idents (name : List String) (vd : VariantData)
    (options : BindOpts) (p : List String) (bs : List BindingInfo)
    (h : match_pattern name vd options = some (p, bs)) :
    bs.map BindingInfo.ident =
      (List.range (field_count vd)).map
        (fun k => options.pfx ++ "_" ++ toString k) := by
  cases vd with
  | Unit =>
      simp only [match_pattern, Option.some.injEq, Prod.mk.injEq] at h
      rw [← h.2]; rfl
  | Tuple fields =>
      simp only [match_pattern, Option.some.injEq, Prod.mk.injEq] at h
      rw [← h.2, tuple_bindings_idents]
      rw [show List.enumFrom 0 fields = fields.enum from rfl]
      simp only [field_count, vd_fields]
      rw [← List.enum_map_fst fields, List.map_map]
      rfl
  | Struct fields =>
      simp only [match_pattern] at h
      cases hr : struct_bindings options.bind_style options.pfx 0 fields with
      | none => rw [hr] at h; exact absurd h (by simp)
      | some r =>
          rw [hr] at h
          simp only [Option.some.injEq, Prod.mk.injEq] at h
          rw [← h.2, struct_bindings_idents _ _ _ _ _ hr]
          rw [show List.enumFrom 0 fields = fields.enum from rfl]
          simp only [field_count, vd_fields]
          rw [← List.enum_map_fst fields, List.map_map]
          rfl

/-- C9: `BindStyle`'s rendering is the total function taking `Move` to the
empty token sequence, `MoveMut` to the mutability marker, `Ref` to the
reference marker, and `RefMut` to both markers. -/
theorem bind_style_to_tokens_total :
    BindStyle.to_tokens BindStyle.Move = [] ∧
    BindStyle.to_tokens BindStyle.MoveMut = ["mut"] ∧
    BindStyle.to_tokens BindStyle.Ref = ["ref"] ∧
    BindStyle.to_tokens BindStyle.RefMut = ["ref", "mut"] :=
  ⟨rfl, rfl, rfl, rfl⟩

/-- C6: for every `Unit`-shaped variant, `match_pattern` returns an empty
binding sequence and a pattern equal to the bare name tokens, with no
destructuring suffix. -/
theorem unit_pattern_spec (name : List String) (options : BindOpts) :
    match_pattern name VariantData.Unit options = some (name, []) :=
  rfl

/-- C1: for every Tuple-shaped variant with N fields, `match_pattern` returns
exactly N bindings in field declaration order, the i-th holding identifier
`pfx_i` (prefix, underscore, zero-based index) and the handle to field i, and
a pattern consisting of the name tokens followed by a parenthesized list of N
binding-style-qualified identifier slots in the same order. -/
theorem tuple_pattern_spec (name : List String) (fields : List Field)
    (options : BindOpts) (p : List String) (bs : List BindingInfo)
    (h : match_pattern name (VariantData.Tuple fields) options = some (p, bs)) :
    bs.length = fields.length ∧
    bs.map BindingInfo.ident =
      fields.enum.map (fun q => options.pfx ++ "_" ++ toString q.1) ∧
    bs.map BindingInfo.field = fields ∧
    p = name ++ ["("] ++
        (fields.enum.map (fun q =>
          options.bind_style.to_tokens ++
            [options.pfx ++ "_" ++ toString q.1, ","])).flatten ++ [")"] := by
  simp only [match_pattern, Option.some.injEq, Prod.mk.injEq] at h
  obtain ⟨hp, hbs⟩ := h
  have hfs : bs.map BindingInfo.field = fields := by
    rw [← hbs]; exact tuple_bindings_fields _ _ _ _
  refine ⟨?_, ?_, hfs, ?_⟩
  · rw [← hfs]; exact (List.length_map _ _).symm
  · rw [← hbs, tuple_bindings_idents]; rfl
  · rw [← hp, tuple_bindings_tokens]; rfl

def tuple_field_0 : Field := { ident := none, ty := "i32", attrs := [] }

def tuple_field_1 : Field := { ident := none, ty := "u8", attrs := ["doc"] }

def ex_tuple_p : List String :=
  ["B", "(", "ref", "__binding_0", ",", "ref", "__binding_1", ",", ")"]

def ex_tuple_bs : List BindingInfo :=
  [{ ident := "__binding_0", field := tuple_field_0 },
   { ident := "__binding_1", field := tuple_field_1 }]

theorem tuple_pattern_spec_witness :
    ex_tuple_bs.length = 2 ∧
    ex_tuple_bs.map BindingInfo.ident = ["__binding_0", "__binding_1"] ∧
    ex_tuple_bs.map BindingInfo.field = [tuple_field_0, tuple_field_1] ∧
    ex_tuple_p = ["B", "(", "ref", "__binding_0", ",", "ref", "__binding_1",
      ",", ")"] := by
  have h := tuple_pattern_spec ["B"] [tuple_field_0, tuple_field_1]
      (BindOpts.new BindStyle.Ref) ex_tuple_p ex_tuple_bs (by decide)
  exact ⟨h.1.trans (by decide), h.2.1.trans (by decide), h.2.2.1,
    h.2.2.2.trans (by decide)⟩

/-- C2: for every Named-shaped variant, `match_pattern` renders the name
tokens followed by a braced list mapping each declared field name, in order,
to a freshly generated positional identifier (not the field's own name), and
each binding's field handle is the field whose declared name appears at the
same position; the witness checks the concrete example
`A{ a: ref __binding_0, b: ref __binding_1, }`. -/
theorem named_pattern_spec (name : List String) (fields : List Field)
    (options : BindOpts) (p : List String) (bs : List BindingInfo)
    (h : match_pattern name (VariantData.Struct fields) options = some (p, bs)) :
    bs.map BindingInfo.field = fields ∧
    bs.map BindingInfo.ident =
      fields.enum.map (fun q => options.pfx ++ "_" ++ toString q.1) ∧
    p = name ++ ["\x7b"] ++
        (fields.enum.map (fun q =>
          [q.2.ident.getD "", ":"] ++ options.bind_style.to_tokens ++
            [options.pfx ++ "_" ++ toString q.1, ","])).flatten ++ ["\x7d"] := by
  simp only [match_pattern] at h
  cases hr : struct_bindings options.bind_style options.pfx 0 fields with
  | none => rw [hr] at h; exact absurd h (by simp)
  | some r =>
      rw [hr] at h
      simp only [Option.some.injEq, Prod.mk.injEq] at h
      obtain ⟨hp, hbs⟩ := h
      refine ⟨?_, ?_, ?_⟩
      · rw [← hbs]; exact struct_bindings_fields _ _ _ _ _ hr
      · rw [← hbs, struct_bindings_idents _ _ _ _ _ hr]; rfl
      · rw [← hp, struct_bindings_tokens _ _ _ _ _ hr]; rfl

def field_a : Field := { ident := some "a", ty := "i32", attrs := [] }

def field_b : Field := { ident := some "b", ty := "i32", attrs := [] }

def ex_named_p : List String :=
  ["A", "\x7b", "a", ":", "ref", "__binding_0", ",",
   "b", ":", "ref", "__binding_1", ",", "\x7d"]

def ex_named_bs : List BindingInfo :=
  [{ ident := "__binding_0", field := field_a },
   { ident := "__binding_1", field := field_b }]

theorem named_pattern_spec_witness :
    ex_named_bs.map BindingInfo.field = [field_a, field_b] ∧
    ex_named_bs.map BindingInfo.ident = ["__binding_0", "__binding_1"] ∧
    ex_named_p = ["A", "\x7b", "a", ":", "ref", "__binding_0", ",",
      "b", ":", "ref", "__binding_1", ",", "\x7d"] := by
  have h := named_pattern_spec ["A"] [field_a, field_b]
      (BindOpts.new BindStyle.Ref) ex_named_p ex_named_bs (by decide)
  exact ⟨h.1, h.2.1.trans (by decide), h.2.2.trans (by decide)⟩

/-- C7: if a Named field shape contains a field without a name,
`match_pattern` aborts the pass (the modelled `unwrap` panic) and produces no
output; when every field of the Named shape has a name, the failure path is
unreachable and `match_pattern` succeeds. -/
theorem named_missing_name_fail_fast (name : List String) (fields : List Field)
    (options : BindOpts) :
    ((∃ f, f ∈ fields ∧ f.ident = none) →
      match_pattern name (VariantData.Struct fields) options = none) ∧
    ((∀ f, f ∈ fields → f.ident ≠ none) →
      (match_pattern name (VariantData.Struct fields) options).isSome = true) := by
  constructor
  · rintro ⟨f, hmem, hn⟩
    simp only [match_pattern]
    rw [struct_bindings_none_of_unnamed _ _ _ _ f hmem hn]
  · intro hnamed
    simp only [match_pattern]
    have h2 := struct_bindings_isSome_of_named options.bind_style options.pfx
      0 fields hnamed
    cases hr : struct_bindings options.bind_style options.pfx 0 fields with
    | none => rw [hr] at h2; cases h2
    | some r => rfl

theorem named_missing_name_fail_fast_witness :
    match_pattern ["A"]
      (VariantData.Struct [{ ident := none, ty := "i32", attrs := [] }])
      (BindOpts.new BindStyle.Ref) = none ∧
    (match_pattern ["A"] (VariantData.Struct [field_a])
      (BindOpts.new BindStyle.Ref)).isSome = true := by
  constructor
  · exact (named_missing_name_fail_fast ["A"]
      [{ ident := none, ty := "i32", attrs := [] }]
      (BindOpts.new BindStyle.Ref)).1 ⟨_, List.mem_cons_self _ _, rfl⟩
  · exact (named_missing_name_fail_fast ["A"] [field_a]
      (BindOpts.new BindStyle.Ref)).2 (by decide)

/-- C8: identifier generation is deterministic and stateless across calls:
any two successful `match_pattern` calls with the same prefix and the same
field count produce identical binding identifier sequences. -/
theorem ident_generation_deterministic
    (n1 n2 : List String) (vd1 vd2 : VariantData) (o1 o2 : BindOpts)
    (p1 p2 : List String) (bs1 bs2 : List BindingInfo)
    (h1 : match_pattern n1 vd1 o1 = some (p1, bs1))
    (h2 : match_pattern n2 vd2 o2 = some (p2, bs2))
    (hpfx : o1.pfx = o2.pfx)
    (hcount : field_count vd1 = field_count vd2) :
    bs1.map BindingInfo.ident = bs2.map BindingInfo.ident := by
  rw [match_pattern_idents _ _ _ _ _ h1, match_pattern_idents _ _ _ _ _ h2,
    hpfx, hcount]

/-- `Iterator::collect` over an option-producing map (the per-variant
`match_pattern` calls of `match_substructs`; a panic in one aborts the
pass). -/
def mapO {α β : Type} (f : α → Option β) : List α → Option (List β)
  | [] => some []
  | x :: xs =>
      match f x with
      | none => none
      | some y =>
          match mapO f xs with
          | none => none
          | some ys => some (y :: ys)

/-- The first phase of `match_substructs`: `let variants = match input.body`
— for an enum, one `match_pattern` call per variant against
`#ident :: #variant_ident`; for a struct, a single `match_pattern` call
against the bare name. -/
def substruct_patterns (input : MacroInput) (options : BindOpts) :
    Option (List (List String × List BindingInfo)) :=
  match input.body with
  | Body.Enum variants =>
      mapO (fun variant =>
          match_pattern [input.ident, "::", variant.ident] variant.data options)
        variants
  | Body.Struct vd =>
      match match_pattern [input.ident] vd options with
      | none => none
      | some pr => some [pr]

/-- `match_substructs`: collects the per-variant patterns, then for each
collected `(pat, bindings)` invokes `func` on the bindings and renders
`quote!(#pat => { #body })`, concatenating the arms. -/
def match_substructs (input : MacroInput) (options : BindOpts)
    (func : List BindingInfo → List String) : Option (List String) :=
  match substruct_patterns input options with
  | none => none
  | some prs =>
      some ((prs.map (fun pr =>
        pr.1 ++ ["=>", "\x7b"] ++ func pr.2 ++ ["\x7d"])).flatten)

/-- `each_field`: `match_substructs` with the per-variant body built by
wrapping each per-field fragment in its own braces and appending the
`quote!(())` unit terminator. -/
def each_field (input : MacroInput) (options : BindOpts)
    (func : BindingInfo → List String) : Option (List String) :=
  match_substructs input options (fun infos =>
    (infos.map (fun info => ["\x7b"] ++ func info ++ ["\x7d"])).flatten
      ++ ["(", ")"])

theorem mapO_length {α β : Type} (f : α → Option β) (xs : List α)
    (ys : List β) (h : mapO f xs = some ys) : ys.length = xs.length := by
  induction xs generalizing ys with
  | nil =>
      simp only [mapO, Option.some.injEq] at h
      subst h; rfl
  | cons x xs ih =>
      simp only [mapO] at h
      cases hx : f x with
      | none => rw [hx] at h; exact absurd h (by simp)
      | some y =>
          rw [hx] at h
          cases hr : mapO f xs with
          | none => rw [hr] at h; exact absurd h (by simp)
          | some ys2 =>
              rw [hr] at h
              simp only [Option.some.injEq] at h
              subst h
              simp [ih ys2 hr]

theorem mapO_get {α β : Type} (f : α → Option β) (xs : List α) (ys : List β)
    (h : mapO f xs = some ys) (k : Nat) (hk : k < xs.length)
    (hk2 : k < ys.length) :
    f (xs.get ⟨k, hk⟩) = some (ys.get ⟨k, hk2⟩) := by
  induction xs generalizing ys k with
  | nil => cases hk
  | cons x xs ih =>
      simp only [mapO] at h
      cases hx : f x with
      | none => rw [hx] at h; exact absurd h (by simp)
      | some y =>
          rw [hx] at h
          cases hr : mapO f xs with
          | none => rw [hr] at h; exact absurd h (by simp)
          | some ys2 =>
              rw [hr] at h
              simp only [Option.some.injEq] at h
              subst h
              cases k with
              | zero => exact hx
              | succ k =>
                  exact ih ys2 hr k (Nat.lt_of_succ_lt_succ hk)
                    (Nat.lt_of_succ_lt_succ hk2)

/-- C3: on an enum with K declared variants, `match_substructs` produces
exactly K match arms `pattern => { body }`, concatenated in declared variant
order, each pattern beginning with `TypeName :: VariantName`, with the
callback's result on the variant's bindings as that arm's body; on a struct
it produces exactly one arm matched by the bare type name. -/
theorem substructs_arms_spec (input : MacroInput) (options : BindOpts)
    (func : List BindingInfo → List String) :
    (∀ variants prs, input.body = Body.Enum variants →
      substruct_patterns input options = some prs →
      (match_substructs input options func =
        some ((prs.map (fun pr =>
          pr.1 ++ ["=>", "\x7b"] ++ func pr.2 ++ ["\x7d"])).flatten) ∧
       prs.length = variants.length ∧
       ∀ (k : Nat) (hk : k < prs.length) (hk2 : k < variants.length),
         (prs.get ⟨k, hk⟩).1.take 3 =
           [input.ident, "::", (variants.get ⟨k, hk2⟩).ident])) ∧
    (∀ vd pr, input.body = Body.Struct vd →
      match_pattern [input.ident] vd options = some pr →
      (match_substructs input options func =
        some (pr.1 ++ ["=>", "\x7b"] ++ func pr.2 ++ ["\x7d"]) ∧
       pr.1.take 1 = [input.ident])) := by
  constructor
  · intro variants prs hb hsp
    refine ⟨by simp only [match_substructs, hsp], ?_, ?_⟩
    · have hm : mapO (fun variant =>
          match_pattern [input.ident, "::", variant.ident] variant.data
            options) variants = some prs := by
        rw [← hsp]; simp only [substruct_patterns, hb]
      exact mapO_length _ _ _ hm
    · intro k hk hk2
      have hm : mapO (fun variant =>
          match_pattern [input.ident, "::", variant.ident] variant.data
            options) variants = some prs := by
        rw [← hsp]; simp only [substruct_patterns, hb]
      have hg := mapO_get _ _ _ hm k hk2 hk
      exact match_pattern_name_head _ _ _ _ _ (by rw [hg])
  · intro vd pr hb hm
    have hsp : substruct_patterns input options = some [pr] := by
      simp only [substruct_patterns, hb, hm]
    refine ⟨?_, ?_⟩
    · simp only [match_substructs, hsp, List.map_cons, List.map_nil,
        List.flatten, List.append_nil]
    · exact match_pattern_name_head _ _ _ _ _ (by rw [hm])

def ex_variants : List Variant :=
  [{ ident := "U", data := VariantData.Unit },
   { ident := "T", data := VariantData.Tuple [tuple_field_0, tuple_field_1] }]

def ex_enum : MacroInput := { ident := "E", body := Body.Enum ex_variants }

def ex_prs : List (List String × List BindingInfo) :=
  [(["E", "::", "U"], []),
   (["E", "::", "T", "(", "ref", "__binding_0", ",", "ref", "__binding_1",
     ",", ")"],
    [{ ident := "__binding_0", field := tuple_field_0 },
     { ident := "__binding_1", field := tuple_field_1 }])]

def ex_struct : MacroInput :=
  { ident := "A", body := Body.Struct (VariantData.Struct [field_a, field_b]) }

theorem substructs_arms_spec_witness :
    match_substructs ex_enum (BindOpts.new BindStyle.Ref) (fun _ => ["0"]) =
      some ["E", "::", "U", "=>", "\x7b", "0", "\x7d",
            "E", "::", "T", "(", "ref", "__binding_0", ",", "ref",
            "__binding_1", ",", ")", "=>", "\x7b", "0", "\x7d"] ∧
    match_substructs ex_struct (BindOpts.new BindStyle.Ref) (fun _ => ["0"]) =
      some ["A", "\x7b", "a", ":", "ref", "__binding_0", ",",
            "b", ":", "ref", "__binding_1", ",", "\x7d",
            "=>", "\x7b", "0", "\x7d"] := by
  constructor
  · have h := (substructs_arms_spec ex_enum (BindOpts.new BindStyle.Ref)
      (fun _ => ["0"])).1 ex_variants ex_prs rfl (by decide)
    exact h.1.trans (by decide)
  · have h := (substructs_arms_spec ex_struct (BindOpts.new BindStyle.Ref)
      (fun _ => ["0"])).2 (VariantData.Struct [field_a, field_b])
      (ex_named_p, ex_named_bs) rfl (by decide)
    exact h.1.trans (by decide)

/-- The observable steps of one `match_substructs` call, tagged with the
zero-based variant index they concern. -/
inductive TraceEvent where
  | patternSynth : Nat → TraceEvent
  | callback : Nat → TraceEvent
  | render : Nat → TraceEvent
deriving DecidableEq, BEq, Repr

/-- `match_substructs` instrumented with the order in which the source
performs its steps: the first phase (`let variants = match input.body`)
synthesizes the pattern of every variant, in declaration order; the second
phase (`for (pat, bindings) in variants`) then, for each collected variant in
order, invokes the callback and renders that variant's arm. -/
def match_substructs_trace (input : MacroInput) (options : BindOpts)
    (func : List BindingInfo → List String) :
    Option (List String × List TraceEvent) :=
  match substruct_patterns input options with
  | none => none
  | some prs =>
      let arms := prs.enum.map (fun q =>
        (q.2.1 ++ ["=>", "\x7b"] ++ func q.2.2 ++ ["\x7d"],
         [TraceEvent.callback q.1, TraceEvent.render q.1]))
      some ((arms.map Prod.fst).flatten,
        (List.range prs.length).map TraceEvent.patternSynth
          ++ (arms.map Prod.snd).flatten)

/-- C4 (amended): `match_substructs` is two-phase, not variant-at-a-time.
The instrumented traversal computes the same tokens as `match_substructs`,
and its step trace is: pattern synthesis for all variants in declaration
order first, then, for each variant in order, the callback invocation
followed by the rendering of that variant's arm. -/
theorem substructs_two_phase_order (input : MacroInput) (options : BindOpts)
    (func : List BindingInfo → List String) :
    ((match_substructs_trace input options func).map (fun r => r.1) =
      match_substructs input options func) ∧
    (∀ t tr prs, match_substructs_trace input options func = some (t, tr) →
      substruct_patterns input options = some prs →
      tr = (List.range prs.length).map TraceEvent.patternSynth ++
           (List.range prs.length).flatMap
             (fun k => [TraceEvent.callback k, TraceEvent.render k])) := by
  constructor
  · cases hsp : substruct_patterns input options with
    | none => simp [match_substructs_trace, match_substructs, hsp]
    | some prs =>
        simp only [match_substructs_trace, match_substructs, hsp,
          Option.map_some']
        congr 1
        rw [List.map_map]
        have h1 : prs.enum.map (Prod.fst ∘ fun q =>
            (q.2.1 ++ ["=>", "\x7b"] ++ func q.2.2 ++ ["\x7d"],
             [TraceEvent.callback q.1, TraceEvent.render q.1])) =
            (prs.enum.map Prod.snd).map
              (fun pr => pr.1 ++ ["=>", "\x7b"] ++ func pr.2 ++ ["\x7d"]) := by
          rw [List.map_map]; rfl
        rw [h1, List.enum_map_snd]
  · intro t tr prs h hsp
    simp only [match_substructs_trace, hsp, Option.some.injEq,
      Prod.mk.injEq] at h
    rw [← h.2]
    congr 1
    rw [List.map_map]
    have : (prs.enum.map ((fun q => [TraceEvent.callback q.1,
        TraceEvent.render q.1]))) =
        prs.enum.map ((fun k => [TraceEvent.callback k, TraceEvent.render k])
          ∘ Prod.fst) := rfl
    have h2 : (prs.enum.map (Prod.snd ∘ (fun q =>
        (q.2.1 ++ ["=>", "\x7b"] ++ func q.2.2 ++ ["\x7d"],
         [TraceEvent.callback q.1, TraceEvent.render q.1])))) =
        prs.enum.map ((fun k => [TraceEvent.callback k, TraceEvent.render k])
          ∘ Prod.fst) := rfl
    rw [h2, ← List.map_map, List.enum_map_fst]
    rfl

def ex_enum2 : MacroInput :=
  { ident := "E2",
    body := Body.Enum [{ ident := "V0", data := VariantData.Unit },
                       { ident := "V1", data := VariantData.Unit }] }

/-- C4 counterexample: on a concrete two-variant enum, pattern synthesis for
variant 1 occurs strictly before the callback invocation for variant 0, so
processing of variant 0 is not fully completed before variant 1's pattern
synthesis begins, contrary to the claim. -/
theorem substructs_order_counterexample :
    match_substructs_trace ex_enum2 (BindOpts.new BindStyle.Move)
      (fun _ => []) =
      some (["E2", "::", "V0", "=>", "\x7b", "\x7d",
             "E2", "::", "V1", "=>", "\x7b", "\x7d"],
            [TraceEvent.patternSynth 0, TraceEvent.patternSynth 1,
             TraceEvent.callback 0, TraceEvent.render 0,
             TraceEvent.callback 1, TraceEvent.render 1]) ∧
    ¬ ([TraceEvent.patternSynth 0, TraceEvent.patternSynth 1,
        TraceEvent.callback 0, TraceEvent.render 0,
        TraceEvent.callback 1, TraceEvent.render 1].indexOf
          (TraceEvent.callback 0) <
       [TraceEvent.patternSynth 0, TraceEvent.patternSynth 1,
        TraceEvent.callback 0, TraceEvent.render 0,
        TraceEvent.callback 1, TraceEvent.render 1].indexOf
          (TraceEvent.patternSynth 1)) := by
  decide

def ex_prs2 : List (List String × List BindingInfo) :=
  [(["E2", "::", "V0"], []), (["E2", "::", "V1"], [])]

theorem substructs_two_phase_order_witness :
    match_substructs_trace ex_enum2 (BindOpts.new BindStyle.Move)
        (fun _ => ["f"]) =
      some (["E2", "::", "V0", "=>", "\x7b", "f", "\x7d",
             "E2", "::", "V1", "=>", "\x7b", "f", "\x7d"],
            [TraceEvent.patternSynth 0, TraceEvent.patternSynth 1,
             TraceEvent.callback 0, TraceEvent.render 0,
             TraceEvent.callback 1, TraceEvent.render 1]) ∧
    [TraceEvent.patternSynth 0, TraceEvent.patternSynth 1,
     TraceEvent.callback 0, TraceEvent.render 0,
     TraceEvent.callback 1, TraceEvent.render 1] =
      (List.range ex_prs2.length).map TraceEvent.patternSynth ++
        (List.range ex_prs2.length).flatMap
          (fun k => [TraceEvent.callback k, TraceEvent.render k]) := by
  have hrun : match_substructs_trace ex_enum2 (BindOpts.new BindStyle.Move)
      (fun _ => ["f"]) =
      some (["E2", "::", "V0", "=>", "\x7b", "f", "\x7d",
             "E2", "::", "V1", "=>", "\x7b", "f", "\x7d"],
            [TraceEvent.patternSynth 0, TraceEvent.patternSynth 1,
             TraceEvent.callback 0, TraceEvent.render 0,
             TraceEvent.callback 1, TraceEvent.render 1]) := by decide
  have h := (substructs_two_phase_order ex_enum2 (BindOpts.new BindStyle.Move)
      (fun _ => ["f"])).2 _ _ ex_prs2 hrun (by decide)
  exact ⟨hrun, h⟩

/-- C5: for every variant, `each_field` applies the per-field callback once
per binding in field declaration order, wraps each fragment in its own
braced scope, concatenates the scoped fragments, and appends the trailing
unit expression; a variant with zero fields gets exactly the unit terminator,
and every arm body ends in the unit expression. -/
theorem each_field_body_spec (input : MacroInput) (options : BindOpts)
    (func : BindingInfo → List String)
    (prs : List (List String × List BindingInfo))
    (h : substruct_patterns input options = some prs) :
    each_field input options func =
      some ((prs.map (fun pr => pr.1 ++ ["=>", "\x7b"] ++
        ((pr.2.map (fun info => ["\x7b"] ++ func info ++ ["\x7d"])).flatten
          ++ ["(", ")"]) ++ ["\x7d"])).flatten) ∧
    (∀ pr, pr ∈ prs → pr.2 = [] →
      (pr.2.map (fun info => ["\x7b"] ++ func info ++ ["\x7d"])).flatten
        ++ ["(", ")"] = ["(", ")"]) ∧
    (∀ pr, pr ∈ prs →
      List.IsSuffix ["(", ")"]
        ((pr.2.map (fun info => ["\x7b"] ++ func info ++ ["\x7d"])).flatten
          ++ ["(", ")"])) := by
  refine ⟨?_, ?_, ?_⟩
  · simp only [each_field, match_substructs, h]
  · intro pr _ h2; rw [h2]; rfl
  · intro pr _; exact ⟨_, rfl⟩

theorem each_field_body_spec_witness :
    each_field ex_struct (BindOpts.new BindStyle.Ref) (fun _ => ["m"]) =
      some ["A", "\x7b", "a", ":", "ref", "__binding_0", ",",
            "b", ":", "ref", "__binding_1", ",", "\x7d", "=>", "\x7b",
            "\x7b", "m", "\x7d", "\x7b", "m", "\x7d", "(", ")", "\x7d"] ∧
    (([] : List BindingInfo).map
        (fun info => ["\x7b"] ++ (fun _ => ["m"]) info ++ ["\x7d"])).flatten
      ++ ["(", ")"] = ["(", ")"] := by
  have h := each_field_body_spec ex_struct (BindOpts.new BindStyle.Ref)
    (fun _ => ["m"]) [(ex_named_p, ex_named_bs)] (by decide)
  exact ⟨h.1.trans (by decide), rfl⟩

theorem ident_generation_deterministic_witness :
    ex_tuple_bs.map BindingInfo.ident = ex_named_bs.map BindingInfo.ident := by
  exact ident_generation_deterministic ["B"] ["A"]
    (VariantData.Tuple [tuple_field_0, tuple_field_1])
    (VariantData.Struct [field_a, field_b])
    (BindOpts.new BindStyle.Ref) (BindOpts.new BindStyle.Ref)
    ex_tuple_p ex_named_p ex_tuple_bs ex_named_bs
    (by decide) (by decide) rfl (by decide)

/-- Replace a field shape's field list, keeping its shape tag. -/
def vd_set_fields : VariantData → List Field → VariantData
  | VariantData.Unit, _ => VariantData.Unit
  | VariantData.Tuple _, fs => VariantData.Tuple fs
  | VariantData.Struct _, fs => VariantData.Struct fs

/-- Positional writeback of the field values a callback left behind through
its `&mut Field` handles: the i-th handle designates the i-th field, so the
i-th reported value replaces the i-th field; fields beyond the reported
values stay as they were (a handle not written through leaves its field
alone). -/
def overwrite : List Field → List Field → List Field
  | [], _ => []
  | old :: olds, [] => old :: olds
  | _ :: olds, new :: news => new :: overwrite olds news

theorem overwrite_self (fs : List Field) : overwrite fs fs = fs := by
  induction fs with
  | nil => rfl
  | cons f fs ih => simp [overwrite, ih]

theorem vd_set_fields_self (vd : VariantData) :
    vd_set_fields vd (vd_fields vd) = vd := by
  cases vd <;> rfl

/-- State-passing form of `match_pattern`: the source body reads the variant
data and packages `&mut` handles into the returned bindings, but contains no
store through them, so the `&mut VariantData` it borrowed is returned as it
was received. -/
def match_pattern_mut (name : List String) (vd : VariantData)
    (options : BindOpts) :
    Option ((List String × List BindingInfo) × VariantData) :=
  match match_pattern name vd options with
  | none => none
  | some r => some (r, vd)

/-- State-passing form of `match_substructs`: the per-variant callback may
write through the `&mut Field` handles of the bindings passed to it, which
all point into the variant it was invoked for; the callback's second
component reports the field values it leaves behind, one per binding, and
they land in that variant's slot of the descriptor.  The traversal itself
performs no other store into the descriptor. -/
def match_substructs_mut (input : MacroInput) (options : BindOpts)
    (func : List BindingInfo → List String × List Field) :
    Option (List String × MacroInput) :=
  match substruct_patterns input options with
  | none => none
  | some prs =>
      let results := prs.map (fun pr => func pr.2)
      let tokens := ((prs.zip results).map (fun q =>
        q.1.1 ++ ["=>", "\x7b"] ++ q.2.1 ++ ["\x7d"])).flatten
      let body2 :=
        match input.body with
        | Body.Enum variants =>
            Body.Enum ((variants.zip results).map (fun q =>
              { ident := q.1.ident,
                data := vd_set_fields q.1.data
                  (overwrite (vd_fields q.1.data) q.2.2) }))
        | Body.Struct vd =>
            Body.Struct (vd_set_fields vd (overwrite (vd_fields vd)
              (match results with
               | [] => vd_fields vd
               | r :: _ => r.2)))
      some (tokens, { ident := input.ident, body := body2 })

/-- State-passing form of `each_field`: built on `match_substructs_mut`, the
per-field callback reports the field value it leaves behind through its
binding's handle. -/
def each_field_mut (input : MacroInput) (options : BindOpts)
    (func : BindingInfo → List String × Field) :
    Option (List String × MacroInput) :=
  match_substructs_mut input options (fun infos =>
    ((infos.map (fun info => ["\x7b"] ++ (func info).1 ++ ["\x7d"])).flatten
       ++ ["(", ")"],
     infos.map (fun info => (func info).2)))

theorem mut_writeback_id (iid : String) (options : BindOpts)
    (func : List BindingInfo → List String × List Field)
    (hno : ∀ bs, (func bs).2 = bs.map BindingInfo.field)
    (variants : List Variant)
    (prs : List (List String × List BindingInfo))
    (h : mapO (fun v =>
        match_pattern [iid, "::", v.ident] v.data options) variants =
      some prs) :
    (variants.zip (prs.map (fun pr => func pr.2))).map (fun q =>
      ({ ident := q.1.ident,
         data := vd_set_fields q.1.data
           (overwrite (vd_fields q.1.data) q.2.2) } : Variant)) =
      variants := by
  induction variants generalizing prs with
  | nil => rfl
  | cons v vs ih =>
      simp only [mapO] at h
      cases hv : match_pattern [iid, "::", v.ident] v.data options with
      | none => rw [hv] at h; exact absurd h (by simp)
      | some pr =>
          rw [hv] at h
          cases hr : mapO (fun v =>
              match_pattern [iid, "::", v.ident] v.data options) vs with
          | none => rw [hr] at h; exact absurd h (by simp)
          | some rest =>
              rw [hr] at h
              simp only [Option.some.injEq] at h
              subst h
              simp only [List.map_cons, List.zip_cons_cons]
              have hfields : (func pr.2).2 = vd_fields v.data := by
                rw [hno pr.2]
                exact match_pattern_fields _ _ _ pr.1 pr.2 (by rw [hv])
              rw [hfields, overwrite_self, vd_set_fields_self]
              rw [ih rest hr]

/-- C10: the traversals themselves never mutate the type descriptor: when
the caller-supplied callback performs no writes through its binding handles
(it leaves every field as it found it), the descriptor after
`match_pattern`, `match_substructs`, or `each_field` returns is equal to its
value before the call. -/
theorem traversal_no_mutation (input : MacroInput) (options : BindOpts) :
    (∀ (name : List String) (vd : VariantData) r vd2,
      match_pattern_mut name vd options = some (r, vd2) → vd2 = vd) ∧
    (∀ (func : List BindingInfo → List String × List Field),
      (∀ bs, (func bs).2 = bs.map BindingInfo.field) →
      ∀ t out, match_substructs_mut input options func = some (t, out) →
        out = input) ∧
    (∀ (func : BindingInfo → List String × Field),
      (∀ b, (func b).2 = b.field) →
      ∀ t out, each_field_mut input options func = some (t, out) →
        out = input) := by
  have hmain : ∀ (func : List BindingInfo → List String × List Field),
      (∀ bs, (func bs).2 = bs.map BindingInfo.field) →
      ∀ t out, match_substructs_mut input options func = some (t, out) →
        out = input := by
    intro func hno t out h
    simp only [match_substructs_mut] at h
    cases hsp : substruct_patterns input options with
    | none => rw [hsp] at h; exact absurd h (by simp)
    | some prs =>
        rw [hsp] at h
        simp only [Option.some.injEq, Prod.mk.injEq] at h
        rw [← h.2]
        cases hb : input.body with
        | Enum variants =>
            have hm : mapO (fun v =>
                match_pattern [input.ident, "::", v.ident] v.data options)
                  variants = some prs := by
              rw [← hsp]; simp only [substruct_patterns, hb]
            simp only [hb]
            rw [mut_writeback_id input.ident options func hno variants prs hm]
            rw [← hb]
        | Struct vd =>
            have hm : substruct_patterns input options =
                match match_pattern [input.ident] vd options with
                | none => none
                | some pr => some [pr] := by
              simp only [substruct_patterns, hb]
            rw [hsp] at hm
            cases hv : match_pattern [input.ident] vd options with
            | none => rw [hv] at hm; exact absurd hm (by simp)
            | some pr =>
                rw [hv] at hm
                simp only [Option.some.injEq] at hm
                subst hm
                have hfields : (func pr.2).2 = vd_fields vd := by
                  rw [hno pr.2]
                  exact match_pattern_fields _ _ _ pr.1 pr.2 (by rw [hv])
                simp only [hb, List.map_cons, List.map_nil, hfields,
                  overwrite_self, vd_set_fields_self]
                rw [← hb]
  refine ⟨?_, hmain, ?_⟩
  · intro name vd r vd2 h
    simp only [match_pattern_mut] at h
    cases hv : match_pattern name vd options with
    | none => rw [hv] at h; exact absurd h (by simp)
    | some r2 =>
        rw [hv] at h
        simp only [Option.some.injEq, Prod.mk.injEq] at h
        exact h.2.symm
  · intro func hno t out h
    exact hmain _ (fun bs => List.map_congr_left (fun b _ => hno b)) t out h

theorem traversal_no_mutation_witness :
    (match_substructs_mut ex_enum (BindOpts.new BindStyle.Ref)
      (fun bs => (["x"], bs.map BindingInfo.field))).map Prod.snd =
      some ex_enum := by
  cases hrun : match_substructs_mut ex_enum (BindOpts.new BindStyle.Ref)
      (fun bs => (["x"], bs.map BindingInfo.field)) with
  | none => exact absurd hrun (by decide)
  | some r =>
      have h := (traversal_no_mutation ex_enum (BindOpts.new BindStyle.Ref)).2.1
        (fun bs => (["x"], bs.map BindingInfo.field)) (fun bs => rfl)
        r.1 r.2 (by rw [hrun])
      rw [Option.map_some']
      rw [h]

end Synstructure
